import Mathlib

/-!
Shallow embedding of the segmentation core of the `video_splitter` repository
(`src/core.py`), together with proofs of the specification's claims about it.

Python floats are modelled as exact rationals (`ℚ`), Python ints as `ℤ`/`ℕ`,
Python strings as Lean `String`s (manipulated through their `List Char` data
where reasoning requires it).  External subprocess calls (`ffmpeg`, `ffprobe`)
and filesystem effects are modelled by an explicit environment record that
fixes the observations the code makes of them (exit codes, probed metadata,
file sizes, the cancellation flag's value at each observation point).
-/

namespace VideoSplitter

/-- Python `f"{n:02d}"`: left-pad a nonnegative single digit with `0`;
larger or negative values print as `str(n)` does. -/
def pad2 (n : ℤ) : String :=
  if 0 ≤ n ∧ n < 10 then "0" ++ toString n else toString n

/-- Python `a % b` on floats: `a - b * floor(a / b)` (sign follows `b`). -/
def pyMod (a b : ℚ) : ℚ := a - b * ⌊a / b⌋

/-- `seconds_to_hm` from `src/core.py` lines 101-104:
`h = int(seconds // 3600); m = int((seconds % 3600) // 60)`, rendered
`f"{h:02d}:{m:02d}"`.  `//` on floats is floor division and `int` of its
integral result is exact, so both components are floors. -/
def seconds_to_hm (seconds : ℚ) : String :=
  let h : ℤ := ⌊seconds / 3600⌋
  let m : ℤ := ⌊pyMod seconds 3600 / 60⌋
  pad2 h ++ ":" ++ pad2 m

/-- `seconds_to_hhmmss` from `src/core.py` lines 107-111; the seconds
component `int(seconds % 60)` truncates a nonnegative value, hence a floor. -/
def seconds_to_hhmmss (seconds : ℚ) : String :=
  let h : ℤ := ⌊seconds / 3600⌋
  let m : ℤ := ⌊pyMod seconds 3600 / 60⌋
  let s : ℤ := ⌊pyMod seconds 60⌋
  pad2 h ++ ":" ++ pad2 m ++ ":" ++ pad2 s

/-- `sanitize_filename` from `src/core.py` lines 137-138:
`name.replace(":", "-")` (single-character replacement, i.e. a map). -/
def sanitize_filename (name : String) : String :=
  String.mk (name.data.map (fun c => if c = ':' then '-' else c))

/-- Round to the nearest integer, ties to even: the semantics of Python's
builtin `round`. -/
def roundHalfEven (q : ℚ) : ℤ :=
  if q - ⌊q⌋ < 1/2 then ⌊q⌋
  else if 1/2 < q - ⌊q⌋ then ⌊q⌋ + 1
  else if ⌊q⌋ % 2 = 0 then ⌊q⌋ else ⌊q⌋ + 1

/-- Python `round(x, 2)` (the float result modelled exactly on `ℚ`). -/
def round2 (q : ℚ) : ℚ := (roundHalfEven (q * 100) : ℚ) / 100

/-- Python `f"{x:.nf}"` fixed-point rendering with `prec` decimals,
half-even rounding; negative values render with a leading minus. -/
def fmtFixed (prec : ℕ) (q : ℚ) : String :=
  let scaled := roundHalfEven (q * 10 ^ prec)
  let n := scaled.natAbs
  let ip := n / 10 ^ prec
  let fp := n % 10 ^ prec
  let fpStr := toString fp
  let fpPad := String.mk (List.replicate (prec - fpStr.length) '0') ++ fpStr
  (if scaled < 0 then "-" else "") ++ toString ip ++ "." ++ fpPad

/-- `format_size` from `src/core.py` lines 141-144. -/
def format_size (size_bytes : ℕ) : String :=
  if size_bytes ≥ 1024 ^ 3 then fmtFixed 2 ((size_bytes : ℚ) / 1024 ^ 3) ++ " GB"
  else fmtFixed 1 ((size_bytes : ℚ) / 1024 ^ 2) ++ " MB"

/-- Python `s[-n:]`: the last `n` characters (the whole string when shorter). -/
def strTakeRight (n : ℕ) (s : String) : String :=
  String.mk (s.data.drop (s.data.length - n))

/-- Python `str.upper`, modelled over the character data. -/
def pyUpper (s : String) : String := String.mk (s.data.map Char.toUpper)

/-- Numeric value of a list of decimal digit characters. -/
def digitsVal (cs : List Char) : ℕ :=
  cs.foldl (fun a c => 10 * a + (c.toNat - 48)) 0

/-- Parse a nonempty all-digit character list, else fail. -/
def parseDigits? (cs : List Char) : Option ℕ :=
  if cs ≠ [] ∧ cs.all Char.isDigit then some (digitsVal cs) else none

/-- Python `str.split(sep)` for a single-character separator, over char data. -/
def splitOnChar (sep : Char) : List Char → List (List Char)
  | [] => [[]]
  | c :: cs =>
    match splitOnChar sep cs with
    | [] => [[]]
    | r :: rs => if c = sep then [] :: r :: rs else (c :: r) :: rs

/-- Unsigned part of Python `float(s)`, restricted to plain decimal literals
`digits`, `digits.digits`, `digits.` and `.digits` (whitespace, exponents and
`inf`/`nan` forms are outside this model). -/
def parseUnsigned (cs : List Char) : Option ℚ :=
  match splitOnChar '.' cs with
  | [ip] => (parseDigits? ip).map (fun n => (n : ℚ))
  | [ip, fp] =>
    if (ip ≠ [] ∨ fp ≠ []) ∧ ip.all Char.isDigit ∧ fp.all Char.isDigit then
      some ((digitsVal ip : ℚ) + (digitsVal fp : ℚ) / 10 ^ fp.length)
    else none
  | _ => none

/-- Python `float(s)` on plain decimal literals with an optional sign;
`none` models a `ValueError`. -/
def parsePyFloat (cs : List Char) : Option ℚ :=
  match cs with
  | [] => none
  | c :: rest =>
    if c = '+' then parseUnsigned rest
    else if c = '-' then (parseUnsigned rest).map (fun q => -q)
    else parseUnsigned (c :: rest)

/-- Python `dict.get(k, default)` over a stream descriptor modelled as an
association list of string fields. -/
def dictGet (d : List (String × String)) (k default : String) : String :=
  match d.find? (fun p => p.1 = k) with
  | some p => p.2
  | none => default

/-- `get_framerate` from `src/core.py` lines 85-91: read `r_frame_rate`
(default `"0/1"`), split on `/`, convert both parts with `float` and round
the quotient to 2 decimals; every failure inside the `try` (wrong number of
parts, unparsable part, zero denominator) yields `0.0`. -/
def get_framerate (stream : List (String × String)) : ℚ :=
  let fr := dictGet stream "r_frame_rate" "0/1"
  match splitOnChar '/' fr.data with
  | [ns, ds] =>
    match parsePyFloat ns, parsePyFloat ds with
    | some n, some d => if d = 0 then 0 else round2 (n / d)
    | _, _ => 0
  | _ => 0

/-- `get_bitrate` from `src/core.py` lines 94-96, applied to the already
extracted optional `bit_rate` field: `int(br) // 1000 if br else 0`. -/
def get_bitrate_of (br : Option ℕ) : ℕ :=
  match br with
  | some b => b / 1000
  | none => 0

/-- Stands in for Python `str()` applied to the numeric value placed after
`-t` in the encoder invocation. -/
def pyStr (q : ℚ) : String := toString q

/-- `os.path.join` in the POSIX, relative-second-argument case. -/
def joinPath (dir name : String) : String := dir ++ "/" ++ name

/-- Start of segment `i`: `start_sec = i * segment_seconds`
(`src/core.py` line 285). -/
def segment_start (L : ℚ) (i : ℕ) : ℚ := (i : ℚ) * L

/-- End of segment `i`: `end_sec = min(start_sec + segment_seconds, duration)`
(`src/core.py` line 286). -/
def segment_end (D L : ℚ) (i : ℕ) : ℚ := min (segment_start L i + L) D

/-- `seg_duration = end_sec - start_sec` (`src/core.py` line 287). -/
def seg_duration (D L : ℚ) (i : ℕ) : ℚ := segment_end D L i - segment_start L i

/-- `num_segments = math.ceil(duration / segment_seconds)`
(`src/core.py` line 258), as the Python integer. -/
def num_segmentsZ (D L : ℚ) : ℤ := ⌈D / L⌉

/-- The number of loop iterations `range(num_segments)` actually performs
(zero when the ceiling is not positive). -/
def num_segments (D L : ℚ) : ℕ := (num_segmentsZ D L).toNat

/-- Per-segment output filename (`src/core.py` line 290):
`f"{base_name}_{sanitize_filename(start_label)} - {sanitize_filename(end_label)}.mp4"`. -/
def out_filename (base_name start_label end_label : String) : String :=
  base_name ++ "_" ++ sanitize_filename start_label ++ " - " ++
    sanitize_filename end_label ++ ".mp4"

/-- `start_label = seconds_to_hm(start_sec)` (`src/core.py` line 288). -/
def seg_start_label (L : ℚ) (i : ℕ) : String := seconds_to_hm (segment_start L i)

/-- `end_label = seconds_to_hm(end_sec)` (`src/core.py` line 289). -/
def seg_end_label (D L : ℚ) (i : ℕ) : String := seconds_to_hm (segment_end D L i)

/-- Output filename of segment `i` as computed in the loop. -/
def seg_filename (D L : ℚ) (base : String) (i : ℕ) : String :=
  out_filename base (seg_start_label L i) (seg_end_label D L i)

/-- `build_ffmpeg_cmd` from `src/core.py` lines 213-227. -/
def build_ffmpeg_cmd (input_path out_path : String) (start_sec seg_dur : ℚ)
    (convert_to_h264 : Bool) : List String :=
  let cmd := ["ffmpeg", "-y",
    "-ss", seconds_to_hhmmss start_sec,
    "-i", input_path,
    "-t", pyStr seg_dur]
  let cmd := cmd ++
    (if convert_to_h264 then
      ["-c:v", "h264_nvenc", "-preset", "p5", "-cq", "23",
       "-c:a", "aac", "-b:a", "192k"]
    else
      ["-c:v", "copy", "-c:a", "copy"])
  cmd ++ [out_path]

/-- The closed status set of a `SplitProgress` event (`src/core.py` line 45). -/
inductive Status where
  | started
  | done
  | failed
  | cancelled
deriving DecidableEq

/-- The `SplitProgress` dataclass (`src/core.py` lines 37-48); the Python int
fields are `ℤ`. -/
structure SplitProgress where
  segment_index : ℤ
  total_segments : ℤ
  start_label : String
  end_label : String
  filename : String
  status : Status
  size_str : String
  error : String
  message : String
deriving DecidableEq

/-- What one encoder subprocess run looks like to the orchestrator: either the
cancellation flag was observed set while the process ran (so the process was
terminated), or the process exited with the given return code. -/
inductive SegOutcome where
  | cancelledMid
  | exited (code : ℤ)
deriving DecidableEq

/-- Metadata the post-segment `get_video_info(out_path)` probe yields, already
split into the fields `split_video` reads from it (`src/core.py` lines
330-343): `width`/`height` of the first video stream, its raw `r_frame_rate`
field, the two `codec_name` fields, and the container `bit_rate`.  `none`
models an absent key. -/
structure ClipMeta where
  width : Option ℤ
  height : Option ℤ
  r_frame_rate : Option String
  codec_video : Option String
  codec_audio : Option String
  bit_rate : Option ℕ
deriving DecidableEq

/-- The environment of one `split_video` call: every observation the code
makes of the outside world.  `duration` is the value `get_duration(info)`
returned for the input file; `cancelBefore i` is the value of
`cancel_event.is_set()` at the top of loop iteration `i`; `outcome i` is what
segment `i`'s subprocess run looks like; `size_bytes i` is
`os.path.getsize(out_path)` for a successful segment `i`; `stderrText i` the
captured stderr of a failed segment `i`; `meta i` the post-segment probe of
segment `i`'s output file; `abspathOut` the value of
`os.path.abspath(output_dir)`. -/
structure Env where
  duration : ℚ
  cancelBefore : ℕ → Bool
  outcome : ℕ → SegOutcome
  size_bytes : ℕ → ℕ
  stderrText : ℕ → String
  meta : ℕ → ClipMeta
  abspathOut : String

/-- One clip-entry dict appended per successful segment
(`src/core.py` lines 333-346). -/
structure ClipEntry where
  filename : String
  start_label : String
  end_label : String
  duration_sec : ℚ
  width : Option ℤ
  height : Option ℤ
  fps : ℚ
  codec_video : String
  codec_audio : String
  bitrate : ℕ
  size_bytes : ℕ
  size_str : String
deriving DecidableEq

/-- The clip entry built for successful segment `i`
(`src/core.py` lines 330-346). -/
def planEntry (env : Env) (base : String) (L : ℚ) (i : ℕ) : ClipEntry :=
  let m := env.meta i
  { filename := seg_filename env.duration L base i
    start_label := seg_start_label L i
    end_label := seg_end_label env.duration L i
    duration_sec := seg_duration env.duration L i
    width := m.width
    height := m.height
    fps := get_framerate (match m.r_frame_rate with
      | some v => [("r_frame_rate", v)]
      | none => [])
    codec_video := pyUpper (m.codec_video.getD "?")
    codec_audio := pyUpper (m.codec_audio.getD "?")
    bitrate := get_bitrate_of m.bit_rate
    size_bytes := env.size_bytes i
    size_str := format_size (env.size_bytes i) }

/-- The initial batch event (`src/core.py` lines 265-270). -/
def batchStartedEv (nseg : ℤ) : SplitProgress :=
  { segment_index := 0, total_segments := nseg
    start_label := "", end_label := "", filename := ""
    status := Status.started, size_str := "", error := ""
    message := "Splitting into " ++ toString nseg ++ " segments..." }

/-- The cancelled event emitted by the top-of-loop check
(`src/core.py` lines 277-282). -/
def topCancelEv (nseg : ℤ) (i : ℕ) : SplitProgress :=
  { segment_index := (i : ℤ) + 1, total_segments := nseg
    start_label := "", end_label := "", filename := ""
    status := Status.cancelled, size_str := "", error := ""
    message := "Cancelled by user." }

/-- The per-segment started event (`src/core.py` lines 293-298). -/
def segStartedEv (D L : ℚ) (base : String) (nseg : ℤ) (i : ℕ) : SplitProgress :=
  { segment_index := (i : ℤ) + 1, total_segments := nseg
    start_label := seg_start_label L i, end_label := seg_end_label D L i
    filename := seg_filename D L base i
    status := Status.started, size_str := "", error := ""
    message := "[" ++ toString (i + 1) ++ "/" ++ toString nseg ++ "] " ++
      seg_start_label L i ++ " -> " ++ seg_end_label D L i ++ " | " ++
      seg_filename D L base i }

/-- The cancelled event emitted when cancellation is observed while the
segment's subprocess runs (`src/core.py` lines 314-319). -/
def midCancelEv (D L : ℚ) (base : String) (nseg : ℤ) (i : ℕ) : SplitProgress :=
  { segment_index := (i : ℤ) + 1, total_segments := nseg
    start_label := seg_start_label L i, end_label := seg_end_label D L i
    filename := seg_filename D L base i
    status := Status.cancelled, size_str := "", error := ""
    message := "Cancelled by user." }

/-- The done event of a successful segment (`src/core.py` lines 349-355). -/
def segDoneEv (D L : ℚ) (base : String) (nseg : ℤ) (i : ℕ) (sz : ℕ) : SplitProgress :=
  { segment_index := (i : ℤ) + 1, total_segments := nseg
    start_label := seg_start_label L i, end_label := seg_end_label D L i
    filename := seg_filename D L base i
    status := Status.done, size_str := format_size sz, error := ""
    message := "[" ++ toString (i + 1) ++ "/" ++ toString nseg ++ "] Done (" ++
      format_size sz ++ ")" }

/-- The failed event of a segment whose encoder exited non-zero
(`src/core.py` lines 356-364); the error text is `stderr[-500:]`. -/
def segFailedEv (D L : ℚ) (base : String) (nseg : ℤ) (i : ℕ) (err : String) : SplitProgress :=
  { segment_index := (i : ℤ) + 1, total_segments := nseg
    start_label := seg_start_label L i, end_label := seg_end_label D L i
    filename := seg_filename D L base i
    status := Status.failed, size_str := "", error := strTakeRight 500 err
    message := "[" ++ toString (i + 1) ++ "/" ++ toString nseg ++ "] FAILED!" }

/-- The README generation event (`src/core.py` lines 372-377). -/
def readmeEv (nseg : ℤ) (output_dir : String) : SplitProgress :=
  { segment_index := nseg, total_segments := nseg
    start_label := "", end_label := "", filename := "README.txt"
    status := Status.done, size_str := "", error := ""
    message := "README.txt generated: " ++ joinPath output_dir "README.txt" }

/-- The final completion event (`src/core.py` lines 379-384). -/
def finalEv (nseg : ℤ) (abspath : String) : SplitProgress :=
  { segment_index := nseg, total_segments := nseg
    start_label := "", end_label := "", filename := ""
    status := Status.done, size_str := "", error := ""
    message := "All done! Files saved to: " ++ abspath }

/-- The per-segment loop of `split_video` (`src/core.py` lines 275-364),
iterating over `range(num_segments)`.  `rem` is the number of remaining
iterations, `i` the current index.  Returns the events emitted from this
point on, the clip entries appended from this point on, and whether the loop
returned early because of cancellation. -/
def segLoop (env : Env) (input_path base output_dir : String) (conv : Bool)
    (L : ℚ) (nseg : ℤ) : ℕ → ℕ → List SplitProgress × List ClipEntry × Bool
  | 0, _ => ([], [], false)
  | rem + 1, i =>
    if env.cancelBefore i then ([topCancelEv nseg i], [], true)
    else
      let sEv := segStartedEv env.duration L base nseg i
      let _cmd := build_ffmpeg_cmd input_path
        (joinPath output_dir (seg_filename env.duration L base i))
        (segment_start L i) (seg_duration env.duration L i) conv
      match env.outcome i with
      | SegOutcome.cancelledMid =>
        ([sEv, midCancelEv env.duration L base nseg i], [], true)
      | SegOutcome.exited code =>
        let rest := segLoop env input_path base output_dir conv L nseg rem (i + 1)
        if code = 0 then
          (sEv :: segDoneEv env.duration L base nseg i (env.size_bytes i) :: rest.1,
           planEntry env base L i :: rest.2.1, rest.2.2)
        else
          (sEv :: segFailedEv env.duration L base nseg i (env.stderrText i) :: rest.1,
           rest.2.1, rest.2.2)

/-- The exceptions `split_video` can raise before any segment work:
`VideoInfoError` for an unreadable duration (`src/core.py` lines 254-255), and
Python's `ZeroDivisionError` from `duration / segment_seconds` when the
requested segment length is zero. -/
inductive SplitError where
  | videoInfo (filepath detail : String)
  | zeroDivision
deriving DecidableEq

/-- `split_video` from `src/core.py` lines 230-386.  `base_name` stands for
`os.path.splitext(os.path.basename(input_path))[0]`, computed by standard
library path functions external to the core.  Returns the emitted progress
events together with either the clip-entry list or the raised exception. -/
def split_video (input_path base_name : String) (segment_duration_minutes : ℚ)
    (convert_to_h264 : Bool) (output_dir : String) (env : Env) :
    List SplitProgress × Except SplitError (List ClipEntry) :=
  let segment_seconds := segment_duration_minutes * 60
  if env.duration = 0 then
    ([], Except.error (SplitError.videoInfo input_path "Cannot read video duration"))
  else if segment_seconds = 0 then
    ([], Except.error SplitError.zeroDivision)
  else
    let nseg : ℤ := num_segmentsZ env.duration segment_seconds
    let n : ℕ := num_segments env.duration segment_seconds
    let r := segLoop env input_path base_name output_dir convert_to_h264
      segment_seconds nseg n 0
    if r.2.2 then
      (batchStartedEv nseg :: r.1, Except.ok r.2.1)
    else
      (batchStartedEv nseg :: r.1 ++
        (if r.2.1 = [] then [] else [readmeEv nseg output_dir]) ++
        [finalEv nseg env.abspathOut],
       Except.ok r.2.1)

/-- The interactive front ends' acceptance condition for the requested
segment length, from `src/main.py` lines 366-373 and `src/gui.py` lines
204-211: the value is rejected when `menit <= 0` or `menit * 60 >= duration`. -/
def frontend_accepts (minutes duration : ℚ) : Prop :=
  0 < minutes ∧ minutes * 60 < duration

instance (m d : ℚ) : Decidable (frontend_accepts m d) := by
  unfold frontend_accepts; infer_instance

/-- One stream descriptor as far as `get_duration` reads it
(`src/core.py` lines 79-81): its `codec_type` and raw `duration` fields. -/
structure StreamDur where
  codec_type : Option String
  duration : Option String

/-- `get_duration`'s fallback scan over the streams (`src/core.py` lines
79-82): the first video stream with a truthy `duration` field is converted
with `float` (a `none` result models the `ValueError` escape); with no such
stream the function returns `0.0`. -/
def get_duration_streams : List StreamDur → Option ℚ
  | [] => some 0
  | s :: rest =>
    if s.codec_type = some "video" ∧ (s.duration.getD "") ≠ "" then
      parsePyFloat ((s.duration.getD "").data)
    else get_duration_streams rest

/-- `get_duration` from `src/core.py` lines 75-82, over the fields it reads:
the container-level `duration` string (if truthy it is converted with
`float`), else the stream scan.  `none` models a `ValueError` from `float`. -/
def get_duration (format_duration : Option String) (streams : List StreamDur) :
    Option ℚ :=
  if (format_duration.getD "") ≠ "" then
    parsePyFloat ((format_duration.getD "").data)
  else get_duration_streams streams

/-- Concatenation of per-index event chunks, used to describe the loop's
event trace. -/
def listConcatMap (f : ℕ → List SplitProgress) : List ℕ → List SplitProgress
  | [] => []
  | j :: js => f j ++ listConcatMap f js

/-- The events segment `j` contributes when it runs to a normal exit. -/
def segChunk (env : Env) (base : String) (L : ℚ) (nseg : ℤ) (j : ℕ) :
    List SplitProgress :=
  match env.outcome j with
  | SegOutcome.exited code =>
    if code = 0 then
      [segStartedEv env.duration L base nseg j,
       segDoneEv env.duration L base nseg j (env.size_bytes j)]
    else
      [segStartedEv env.duration L base nseg j,
       segFailedEv env.duration L base nseg j (env.stderrText j)]
  | SegOutcome.cancelledMid => []

/-- Whether segment `j`'s encoder run exited with status 0. -/
def segSuccess (env : Env) (j : ℕ) : Bool :=
  match env.outcome j with
  | SegOutcome.exited code => code = 0
  | SegOutcome.cancelledMid => false

section PlanLemmas

lemma num_segmentsZ_pos {D L : ℚ} (hD : 0 < D) (hL : 0 < L) :
    0 < num_segmentsZ D L := by
  unfold num_segmentsZ
  exact Int.ceil_pos.mpr (div_pos hD hL)

lemma num_segments_cast {D L : ℚ} (hD : 0 < D) (hL : 0 < L) :
    (num_segments D L : ℤ) = num_segmentsZ D L :=
  Int.toNat_of_nonneg (num_segmentsZ_pos hD hL).le

lemma index_lt_div {D L : ℚ} (hD : 0 < D) (hL : 0 < L) {i : ℕ}
    (hi : i < num_segments D L) : (i : ℚ) < D / L := by
  have h1 : (i : ℤ) < (num_segments D L : ℤ) := by exact_mod_cast hi
  rw [num_segments_cast hD hL] at h1
  have h2 : ((i : ℤ) : ℚ) < D / L := Int.lt_ceil.mp h1
  exact_mod_cast h2

lemma duration_le_count_mul {D L : ℚ} (hD : 0 < D) (hL : 0 < L) :
    D ≤ (num_segments D L : ℚ) * L := by
  have h1 : D / L ≤ ((num_segmentsZ D L : ℤ) : ℚ) := Int.le_ceil _
  have h2 : ((num_segments D L : ℤ) : ℚ) = ((num_segmentsZ D L : ℤ) : ℚ) := by
    exact_mod_cast congrArg (fun z : ℤ => (z : ℚ)) (num_segments_cast hD hL)
  rw [div_le_iff₀ hL] at h1
  calc D ≤ ((num_segmentsZ D L : ℤ) : ℚ) * L := h1
    _ = (num_segments D L : ℚ) * L := by rw [← h2]; norm_cast

end PlanLemmas

/-- C1: for every `total_duration > 0` and `0 < segment_length <
total_duration`, the plan `split_video` iterates over (`start_i = i*L`,
`end_i = min((i+1)*L, D)` for `i = 0 .. count-1`) has count `⌈D/L⌉`, starts
at 0, is contiguous, non-overlapping, has nonempty segments, ends exactly at
`D`, and covers `[0, D)`; concretely `D = 1500`, `L = 600` yields the three
ranges `[0,600)`, `[600,1200)`, `[1200,1500)`, the last of duration 300. -/
theorem C1_segment_plan (D L : ℚ) (hD : 0 < D) (hL : 0 < L) (_hLD : L < D) :
    ((num_segments D L : ℤ) = ⌈D / L⌉ ∧
      segment_start L 0 = 0 ∧
      (∀ i : ℕ, i + 1 < num_segments D L →
        segment_end D L i = segment_start L (i + 1)) ∧
      (∀ i : ℕ, i < num_segments D L →
        segment_start L i < segment_end D L i) ∧
      segment_end D L (num_segments D L - 1) = D ∧
      (∀ i j : ℕ, i < j → j < num_segments D L →
        segment_end D L i ≤ segment_start L j) ∧
      (∀ x : ℚ, 0 ≤ x → x < D → ∃ i : ℕ, i < num_segments D L ∧
        segment_start L i ≤ x ∧ x < segment_end D L i)) ∧
    (num_segments 1500 600 = 3 ∧
      segment_start 600 0 = 0 ∧ segment_end 1500 600 0 = 600 ∧
      segment_start 600 1 = 600 ∧ segment_end 1500 600 1 = 1200 ∧
      segment_start 600 2 = 1200 ∧ segment_end 1500 600 2 = 1500 ∧
      seg_duration 1500 600 2 = 300) := by
  constructor
  · refine ⟨num_segments_cast hD hL, by simp [segment_start], ?_, ?_, ?_, ?_, ?_⟩
    · -- contiguity
      intro i hi
      have h1 : ((i : ℚ) + 1) < D / L := by
        have := index_lt_div hD hL hi
        push_cast at this
        linarith
      have h2 : ((i : ℚ) + 1) * L < D := (lt_div_iff₀ hL).mp h1
      simp only [segment_end, segment_start]
      rw [min_eq_left (by nlinarith)]
      push_cast
      ring
    · -- each segment nonempty
      intro i hi
      have h1 : (i : ℚ) * L < D := (lt_div_iff₀ hL).mp (index_lt_div hD hL hi)
      simp only [segment_start, segment_end]
      exact lt_min (by linarith) h1
    · -- the final segment ends exactly at the total duration
      have hn1 : 1 ≤ num_segments D L := by
        have := num_segmentsZ_pos hD hL
        have h := num_segments_cast hD hL
        omega
      have hcast : ((num_segments D L - 1 : ℕ) : ℚ) = (num_segments D L : ℚ) - 1 := by
        push_cast [Nat.cast_sub hn1]
        ring
      simp only [segment_end, segment_start]
      rw [hcast]
      have harg : ((num_segments D L : ℚ) - 1) * L + L = (num_segments D L : ℚ) * L := by
        ring
      rw [harg]
      exact min_eq_right (duration_le_count_mul hD hL)
    · -- non-overlap
      intro i j hij _
      simp only [segment_end, segment_start]
      refine le_trans (min_le_left _ _) ?_
      have h1 : ((i : ℚ) + 1) ≤ (j : ℚ) := by exact_mod_cast hij
      nlinarith
    · -- coverage of [0, D)
      intro x hx hxD
      have hiZ0 : 0 ≤ ⌊x / L⌋ := Int.floor_nonneg.mpr (div_nonneg hx hL.le)
      have hcast3 : ((⌊x / L⌋.toNat : ℕ) : ℚ) = ((⌊x / L⌋ : ℤ) : ℚ) := by
        exact_mod_cast congrArg (fun z : ℤ => (z : ℚ)) (Int.toNat_of_nonneg hiZ0)
      refine ⟨(⌊x / L⌋).toNat, ?_, ?_, ?_⟩
      · have hlt : (⌊x / L⌋ : ℚ) < (num_segmentsZ D L : ℚ) := by
          refine lt_of_le_of_lt (Int.floor_le _) ?_
          refine lt_of_lt_of_le ?_ (Int.le_ceil _)
          exact div_lt_div_of_pos_right hxD hL
        have hlt2 : ⌊x / L⌋ < num_segmentsZ D L := by exact_mod_cast hlt
        have h := num_segments_cast hD hL
        omega
      · simp only [segment_start]
        rw [hcast3]
        exact (le_div_iff₀ hL).mp (Int.floor_le _)
      · simp only [segment_end, segment_start]
        refine lt_min ?_ hxD
        rw [hcast3]
        have h1 : x / L < (⌊x / L⌋ : ℚ) + 1 := Int.lt_floor_add_one _
        have h2 : x < ((⌊x / L⌋ : ℚ) + 1) * L := (div_lt_iff₀ hL).mp h1
        linarith
  · -- the concrete 1500 / 600 scenario
    have hceil : (⌈(1500 : ℚ) / 600⌉ : ℤ) = 3 := by
      norm_num [Int.ceil_eq_iff]
    refine ⟨?_, ?_, ?_, ?_, ?_, ?_, ?_, ?_⟩
    · simp [num_segments, num_segmentsZ, hceil]
    · simp [segment_start]
    · unfold segment_end segment_start; norm_num
    · unfold segment_start; norm_num
    · unfold segment_end segment_start; norm_num
    · unfold segment_start; norm_num
    · unfold segment_end segment_start; norm_num
    · unfold seg_duration segment_end segment_start; norm_num

/-- Witness for C1 at `D = 1500`, `L = 600`. -/
theorem C1_segment_plan_witness :
    (0 : ℚ) < 1500 ∧ (0 : ℚ) < 600 ∧ (600 : ℚ) < 1500 ∧
    num_segments 1500 600 = 3 ∧ seg_duration 1500 600 2 = 300 := by
  have h := C1_segment_plan 1500 600 (by norm_num) (by norm_num) (by norm_num)
  exact ⟨by norm_num, by norm_num, by norm_num, h.2.1, h.2.2.2.2.2.2.2.2⟩

section LoopLemmas

variable (env : Env) (ip base od : String) (conv : Bool) (L : ℚ) (nseg : ℤ)

/-- If the cancellation flag is monotone and set at segment `k`, then from
any point `i ≤ k` with `k` still in range the loop returns early: the early
flag is set, the trace is nonempty and ends in a cancelled event, the
returned entries all come from successful segments in `[i, k)` (at most
`k - i` of them), and every started event belongs to a segment in `[i, k)`. -/
lemma segLoop_cancelled (k : ℕ)
    (hmono : ∀ i j : ℕ, i ≤ j → env.cancelBefore i = true → env.cancelBefore j = true)
    (hk : env.cancelBefore k = true) :
    ∀ rem i, i ≤ k → k < i + rem →
      (segLoop env ip base od conv L nseg rem i).2.2 = true ∧
      (segLoop env ip base od conv L nseg rem i).1 ≠ [] ∧
      ((segLoop env ip base od conv L nseg rem i).1.getLast?.map SplitProgress.status
        = some Status.cancelled) ∧
      (∀ e ∈ (segLoop env ip base od conv L nseg rem i).2.1, ∃ j : ℕ,
        i ≤ j ∧ j < k ∧ env.outcome j = SegOutcome.exited 0 ∧
        e = planEntry env base L j) ∧
      (segLoop env ip base od conv L nseg rem i).2.1.length ≤ k - i ∧
      (∀ e ∈ (segLoop env ip base od conv L nseg rem i).1,
        e.status = Status.started → ∃ j : ℕ,
        i ≤ j ∧ j < k ∧ e = segStartedEv env.duration L base nseg j) := by
  intro rem
  induction rem with
  | zero => intro i hik hrange; omega
  | succ rem ih =>
    intro i hik hrange
    by_cases hc : env.cancelBefore i = true
    · simp only [segLoop, hc, if_true]
      refine ⟨by simp, by simp, by simp [topCancelEv], by simp, by simp, ?_⟩
      intro e he hst
      simp at he
      rw [he] at hst
      simp [topCancelEv] at hst
    · have hik2 : i < k := by
        rcases Nat.lt_or_ge i k with h | h
        · exact h
        · exact absurd (hk ▸ hmono k i (by omega) hk) (by
            have : i = k := by omega
            rw [this] at hc
            exact fun h2 => hc hk)
      simp only [segLoop, hc, if_false, Bool.false_eq_true]
      rcases houtcome : env.outcome i with _ | code
      · refine ⟨by simp, by simp, by simp [List.getLast?, midCancelEv], by simp, by simp, ?_⟩
        intro e he hst
        simp at he
        rcases he with he | he
        · exact ⟨i, le_refl i, hik2, by rw [he]⟩
        · rw [he] at hst
          simp [midCancelEv] at hst
      · obtain ⟨ihflag, ihne, ihlast, ihent, ihlen, ihstart⟩ :=
          ih (i + 1) (by omega) (by omega)
        by_cases hcode : code = 0
        · subst hcode
          simp only [if_true, reduceIte]
          refine ⟨ihflag, by simp, ?_, ?_, ?_, ?_⟩
          · rcases hrest : (segLoop env ip base od conv L nseg rem (i + 1)).1 with
              _ | ⟨x, xs⟩
            · exact absurd hrest ihne
            · rw [hrest] at ihlast
              simpa [List.getLast?_cons_cons] using ihlast
          · intro e he
            rcases List.mem_cons.mp he with he | he
            · exact ⟨i, le_refl i, hik2, houtcome, he⟩
            · obtain ⟨j, hj1, hj2, hj3, hj4⟩ := ihent e he
              exact ⟨j, by omega, hj2, hj3, hj4⟩
          · simp only [List.length_cons]
            omega
          · intro e he hst
            rcases List.mem_cons.mp he with he | he
            · exact ⟨i, le_refl i, hik2, he⟩
            · rcases List.mem_cons.mp he with he | he
              · rw [he] at hst
                simp [segDoneEv] at hst
              · obtain ⟨j, hj1, hj2, hj3⟩ := ihstart e he hst
                exact ⟨j, by omega, hj2, hj3⟩
        · simp only [if_neg hcode]
          refine ⟨ihflag, by simp, ?_, ?_, ?_, ?_⟩
          · rcases hrest : (segLoop env ip base od conv L nseg rem (i + 1)).1 with
              _ | ⟨x, xs⟩
            · exact absurd hrest ihne
            · rw [hrest] at ihlast
              simpa [List.getLast?_cons_cons] using ihlast
          · intro e he
            obtain ⟨j, hj1, hj2, hj3, hj4⟩ := ihent e he
            exact ⟨j, by omega, hj2, hj3, hj4⟩
          · omega
          · intro e he hst
            rcases List.mem_cons.mp he with he | he
            · exact ⟨i, le_refl i, hik2, he⟩
            · rcases List.mem_cons.mp he with he | he
              · rw [he] at hst
                simp [segFailedEv] at hst
              · obtain ⟨j, hj1, hj2, hj3⟩ := ihstart e he hst
                exact ⟨j, by omega, hj2, hj3⟩

end LoopLemmas

/-- C2: if the cancellation signal is observed set before segment `k`
(0-based; the event field `segment_index` is the 1-based `i + 1`) and
`k` is within the plan, `split_video` returns only entries of successful
segments strictly before `k` (hence at most `k` of them, i.e. at most
`k' - 1` for the 1-based `k' = k + 1`), the last emitted event has status
`cancelled`, and every started event — so every segment ever attempted —
has 1-based index at most `k`. -/
theorem C2_cancellation (ip base od : String) (m : ℚ) (conv : Bool) (env : Env)
    (k : ℕ) (hdur : env.duration ≠ 0) (hL : m * 60 ≠ 0)
    (hmono : ∀ i j : ℕ, i ≤ j → env.cancelBefore i = true → env.cancelBefore j = true)
    (hk : env.cancelBefore k = true)
    (hkn : k < num_segments env.duration (m * 60)) :
    ∃ entries, (split_video ip base m conv od env).2 = Except.ok entries ∧
      entries.length ≤ k ∧
      (∀ e ∈ entries, ∃ j : ℕ, j < k ∧ env.outcome j = SegOutcome.exited 0 ∧
        e = planEntry env base (m * 60) j) ∧
      ((split_video ip base m conv od env).1.getLast?.map SplitProgress.status
        = some Status.cancelled) ∧
      (∀ e ∈ (split_video ip base m conv od env).1,
        e.status = Status.started → e.segment_index ≤ (k : ℤ)) := by
  obtain ⟨hflag, hne, hlast, hent, hlen, hstart⟩ :=
    segLoop_cancelled env ip base od conv (m * 60)
      (num_segmentsZ env.duration (m * 60)) k hmono hk
      (num_segments env.duration (m * 60)) 0 (Nat.zero_le k) (by omega)
  simp only [split_video, if_neg hdur, if_neg hL]
  rw [if_pos hflag]
  refine ⟨_, rfl, by simpa using hlen, ?_, ?_, ?_⟩
  · intro e he
    obtain ⟨j, _, hj2, hj3, hj4⟩ := hent e he
    exact ⟨j, hj2, hj3, hj4⟩
  · rcases hrest : (segLoop env ip base od conv (m * 60)
        (num_segmentsZ env.duration (m * 60))
        (num_segments env.duration (m * 60)) 0).1 with _ | ⟨x, xs⟩
    · exact absurd hrest hne
    · rw [hrest] at hlast
      simpa [List.getLast?_cons_cons] using hlast
  · intro e he hst
    rcases List.mem_cons.mp he with he | he
    · rw [he]
      simp [batchStartedEv]
    · obtain ⟨j, _, hj2, hj3⟩ := hstart e he hst
      rw [hj3]
      simp only [segStartedEv]
      omega

/-- A probe result with every optional field absent, used by concrete
environments in witnesses. -/
def emptyMeta : ClipMeta :=
  { width := none, height := none, r_frame_rate := none
    codec_video := none, codec_audio := none, bit_rate := none }

/-- A concrete environment: a 1500-second video, every encoder run exits 0,
and the cancellation flag is observed set from segment 1 on. -/
def envCancelAt1 : Env :=
  { duration := 1500
    cancelBefore := fun i => decide (1 ≤ i)
    outcome := fun _ => SegOutcome.exited 0
    size_bytes := fun _ => 0
    stderrText := fun _ => ""
    meta := fun _ => emptyMeta
    abspathOut := "/out" }

/-- Witness for C2: a 1500-second video split into 600-second segments with
the cancellation flag set before segment 1 (0-based). -/
theorem C2_cancellation_witness :
    envCancelAt1.duration ≠ 0 ∧ (10 : ℚ) * 60 ≠ 0 ∧
    envCancelAt1.cancelBefore 1 = true ∧
    1 < num_segments envCancelAt1.duration ((10 : ℚ) * 60) ∧
    (∃ entries,
      (split_video "in.mp4" "in" 10 false "out" envCancelAt1).2 = Except.ok entries ∧
      entries.length ≤ 1 ∧
      (∀ e ∈ entries, ∃ j : ℕ, j < 1 ∧ envCancelAt1.outcome j = SegOutcome.exited 0 ∧
        e = planEntry envCancelAt1 "in" ((10 : ℚ) * 60) j) ∧
      ((split_video "in.mp4" "in" 10 false "out" envCancelAt1).1.getLast?.map
        SplitProgress.status = some Status.cancelled) ∧
      (∀ e ∈ (split_video "in.mp4" "in" 10 false "out" envCancelAt1).1,
        e.status = Status.started → e.segment_index ≤ ((1 : ℕ) : ℤ))) := by
  have hdur : envCancelAt1.duration ≠ 0 := by
    simp only [envCancelAt1]
    norm_num
  have hL : (10 : ℚ) * 60 ≠ 0 := by norm_num
  have hmono : ∀ i j : ℕ, i ≤ j →
      envCancelAt1.cancelBefore i = true → envCancelAt1.cancelBefore j = true := by
    intro i j hij h
    simp only [envCancelAt1, decide_eq_true_eq] at h ⊢
    omega
  have hk : envCancelAt1.cancelBefore 1 = true := by
    simp [envCancelAt1]
  have hkn : 1 < num_segments envCancelAt1.duration ((10 : ℚ) * 60) := by
    have hceil : (⌈(1500 : ℚ) / (10 * 60)⌉ : ℤ) = 3 := by norm_num [Int.ceil_eq_iff]
    simp only [envCancelAt1, num_segments, num_segmentsZ, hceil]
    omega
  exact ⟨hdur, hL, hk, hkn,
    C2_cancellation "in.mp4" "in" "out" 10 false envCancelAt1 1 hdur hL hmono hk hkn⟩

lemma mem_listConcatMap {f : ℕ → List SplitProgress} {e : SplitProgress} :
    ∀ {l : List ℕ}, e ∈ listConcatMap f l ↔ ∃ j ∈ l, e ∈ f j := by
  intro l
  induction l with
  | nil => simp [listConcatMap]
  | cons j js ih =>
    simp only [listConcatMap, List.mem_append, ih, List.mem_cons]
    constructor
    · rintro (h | ⟨j2, hj2, he⟩)
      · exact ⟨j, Or.inl rfl, h⟩
      · exact ⟨j2, Or.inr hj2, he⟩
    · rintro ⟨j2, hj2 | hj2, he⟩
      · exact Or.inl (hj2 ▸ he)
      · exact Or.inr ⟨j2, hj2, he⟩

/-- When neither the top-of-loop check nor the mid-run poll ever observes the
cancellation flag over the remaining range, the loop runs to exhaustion: the
trace is the concatenation of the per-segment chunks, the entries are exactly
those of the successful segments (in index order), and the early flag is
clear. -/
lemma segLoop_nocancel (env : Env) (ip base od : String) (conv : Bool) (L : ℚ)
    (nseg : ℤ) :
    ∀ rem i,
      (∀ j, i ≤ j → j < i + rem →
        env.cancelBefore j = false ∧ env.outcome j ≠ SegOutcome.cancelledMid) →
      segLoop env ip base od conv L nseg rem i =
        (listConcatMap (segChunk env base L nseg) (List.range' i rem),
         ((List.range' i rem).filter (segSuccess env)).map (planEntry env base L),
         false) := by
  intro rem
  induction rem with
  | zero => intro i _; simp [segLoop, listConcatMap]
  | succ rem ih =>
    intro i h
    obtain ⟨hci, hmi⟩ := h i (le_refl i) (by omega)
    rcases houtcome : env.outcome i with _ | code
    · exact absurd houtcome hmi
    · have hrec := ih (i + 1) (fun j hj1 hj2 => h j (by omega) (by omega))
      simp only [segLoop, hci, Bool.false_eq_true, if_false, houtcome, hrec,
        List.range'_succ, listConcatMap, List.filter_cons, segChunk, segSuccess]
      by_cases hcode : code = 0
      · subst hcode
        simp
      · simp [hcode]

/-- C3: with no cancellation, if exactly one planned segment `jf` exits with
a non-zero code and every other planned segment exits 0, `split_video` still
returns normally with `n - 1` entries, its trace contains a failed event for
`jf` (1-based index `jf + 1`) carrying the last 500 characters of the
captured stderr, and the trace still ends with the final completion event
(status `done`). -/
theorem C3_partial_failure (ip base od : String) (m : ℚ) (conv : Bool)
    (env : Env) (jf : ℕ) (cf : ℤ)
    (hdur : env.duration ≠ 0) (hL : m * 60 ≠ 0)
    (hnc : ∀ j, j < num_segments env.duration (m * 60) →
      env.cancelBefore j = false)
    (hjf : jf < num_segments env.duration (m * 60))
    (hfail : env.outcome jf = SegOutcome.exited cf) (hcf : cf ≠ 0)
    (hsucc : ∀ j, j < num_segments env.duration (m * 60) → j ≠ jf →
      env.outcome j = SegOutcome.exited 0) :
    ∃ entries, (split_video ip base m conv od env).2 = Except.ok entries ∧
      entries.length = num_segments env.duration (m * 60) - 1 ∧
      (∃ e ∈ (split_video ip base m conv od env).1, e.status = Status.failed ∧
        e.segment_index = (jf : ℤ) + 1 ∧
        e.error = strTakeRight 500 (env.stderrText jf)) ∧
      (split_video ip base m conv od env).1.getLast? =
        some (finalEv (num_segmentsZ env.duration (m * 60)) env.abspathOut) := by
  have hrun := segLoop_nocancel env ip base od conv (m * 60)
    (num_segmentsZ env.duration (m * 60)) (num_segments env.duration (m * 60)) 0
    (by
      intro j hj1 hj2
      refine ⟨hnc j (by omega), ?_⟩
      by_cases hje : j = jf
      · subst hje
        rw [hfail]
        simp
      · rw [hsucc j (by omega) hje]
        simp)
  simp only [split_video, if_neg hdur, if_neg hL]
  rw [hrun]
  simp only [if_false, Bool.false_eq_true, reduceIte]
  refine ⟨_, rfl, ?_, ?_, ?_⟩
  · -- length: every planned segment but jf succeeds
    rw [List.length_map]
    have hsplit : List.range' 0 (num_segments env.duration (m * 60)) =
        List.range' 0 jf ++
        (jf :: List.range' (jf + 1) (num_segments env.duration (m * 60) - jf - 1)) := by
      have h1 := List.range'_append 0 jf (num_segments env.duration (m * 60) - jf) 1
      simp only [one_mul, Nat.zero_add] at h1
      rw [show num_segments env.duration (m * 60) - jf =
          (num_segments env.duration (m * 60) - jf - 1) + 1 by omega] at h1
      rw [List.range'_succ] at h1
      nth_rewrite 1 [show num_segments env.duration (m * 60) =
          num_segments env.duration (m * 60) - jf - 1 + 1 + jf by omega]
      exact h1.symm
    rw [hsplit, List.filter_append, List.length_append, List.filter_cons]
    have hjffalse : segSuccess env jf = false := by
      simp [segSuccess, hfail, hcf]
    rw [hjffalse]
    simp only [Bool.false_eq_true, if_false]
    have hleft : (List.range' 0 jf).filter (segSuccess env) = List.range' 0 jf := by
      rw [List.filter_eq_self]
      intro a ha
      have := (List.mem_range'_1.mp ha).2
      simp [segSuccess, hsucc a (by omega) (by omega)]
    have hright : (List.range' (jf + 1)
        (num_segments env.duration (m * 60) - jf - 1)).filter (segSuccess env) =
        List.range' (jf + 1) (num_segments env.duration (m * 60) - jf - 1) := by
      rw [List.filter_eq_self]
      intro a ha
      have h2 := List.mem_range'_1.mp ha
      simp [segSuccess, hsucc a (by omega) (by omega)]
    rw [hleft, hright]
    simp only [List.length_range']
    omega
  · -- the failed event for jf is in the trace
    refine ⟨segFailedEv env.duration (m * 60) base
      (num_segmentsZ env.duration (m * 60)) jf (env.stderrText jf), ?_, ?_, ?_, ?_⟩
    · apply List.mem_cons_of_mem
      apply List.mem_append_left
      apply List.mem_append_left
      rw [mem_listConcatMap]
      refine ⟨jf, List.mem_range'_1.mpr (by omega), ?_⟩
      simp [segChunk, hfail, hcf]
    · simp [segFailedEv]
    · simp [segFailedEv]
    · simp [segFailedEv]
  · -- the trace still ends with the final completion event
    exact List.getLast?_concat _

/-- A concrete environment: a 1500-second video, no cancellation, segment 1
exits with code 1 and every other segment exits 0. -/
def envFailAt1 : Env :=
  { duration := 1500
    cancelBefore := fun _ => false
    outcome := fun j => if j = 1 then SegOutcome.exited 1 else SegOutcome.exited 0
    size_bytes := fun _ => 0
    stderrText := fun _ => "boom"
    meta := fun _ => emptyMeta
    abspathOut := "/out" }

/-- Witness for C3: three 600-second segments of a 1500-second video, with
exactly segment 1 failing. -/
theorem C3_partial_failure_witness :
    envFailAt1.duration ≠ 0 ∧ (10 : ℚ) * 60 ≠ 0 ∧
    1 < num_segments envFailAt1.duration ((10 : ℚ) * 60) ∧
    envFailAt1.outcome 1 = SegOutcome.exited 1 ∧ (1 : ℤ) ≠ 0 ∧
    (∃ entries,
      (split_video "in.mp4" "in" 10 false "out" envFailAt1).2 = Except.ok entries ∧
      entries.length = num_segments envFailAt1.duration ((10 : ℚ) * 60) - 1 ∧
      (∃ e ∈ (split_video "in.mp4" "in" 10 false "out" envFailAt1).1,
        e.status = Status.failed ∧ e.segment_index = ((1 : ℕ) : ℤ) + 1 ∧
        e.error = strTakeRight 500 (envFailAt1.stderrText 1)) ∧
      (split_video "in.mp4" "in" 10 false "out" envFailAt1).1.getLast? =
        some (finalEv (num_segmentsZ envFailAt1.duration ((10 : ℚ) * 60))
          envFailAt1.abspathOut)) := by
  have hdur : envFailAt1.duration ≠ 0 := by
    simp only [envFailAt1]
    norm_num
  have hL : (10 : ℚ) * 60 ≠ 0 := by norm_num
  have hnc : ∀ j, j < num_segments envFailAt1.duration ((10 : ℚ) * 60) →
      envFailAt1.cancelBefore j = false := fun j _ => rfl
  have hjf : 1 < num_segments envFailAt1.duration ((10 : ℚ) * 60) := by
    have hceil : (⌈(1500 : ℚ) / (10 * 60)⌉ : ℤ) = 3 := by norm_num [Int.ceil_eq_iff]
    simp only [envFailAt1, num_segments, num_segmentsZ, hceil]
    omega
  have hfail : envFailAt1.outcome 1 = SegOutcome.exited 1 := by simp [envFailAt1]
  have hcf : (1 : ℤ) ≠ 0 := one_ne_zero
  have hsucc : ∀ j, j < num_segments envFailAt1.duration ((10 : ℚ) * 60) →
      j ≠ 1 → envFailAt1.outcome j = SegOutcome.exited 0 := by
    intro j _ hne
    simp [envFailAt1, hne]
  exact ⟨hdur, hL, hjf, hfail, hcf,
    C3_partial_failure "in.mp4" "in" "out" 10 false envFailAt1 1 1 hdur hL hnc hjf
      hfail hcf hsucc⟩

/-- A concrete environment of the given duration in which nothing is ever
cancelled and every encoder run exits 0. -/
def envAllOk (D : ℚ) : Env :=
  { duration := D
    cancelBefore := fun _ => false
    outcome := fun _ => SegOutcome.exited 0
    size_bytes := fun _ => 0
    stderrText := fun _ => ""
    meta := fun _ => emptyMeta
    abspathOut := "/out" }

/-- Once past its two initial guards, `split_video` always returns normally
(both arms of the final branch are `Except.ok`). -/
lemma split_video_ok (ip base od : String) (m : ℚ) (conv : Bool) (env : Env)
    (hdur : env.duration ≠ 0) (hL : m * 60 ≠ 0) :
    ∃ entries, (split_video ip base m conv od env).2 = Except.ok entries := by
  simp only [split_video, if_neg hdur, if_neg hL]
  by_cases hc : (segLoop env ip base od conv (m * 60)
      (num_segmentsZ env.duration (m * 60))
      (num_segments env.duration (m * 60)) 0).2.2 = true
  · rw [if_pos hc]
    exact ⟨_, rfl⟩
  · rw [if_neg hc]
    exact ⟨_, rfl⟩

/-- When the plan is empty (`num_segments = 0`) but the guards pass,
`split_video` silently emits only the batch-started and final events and
returns an empty entry list. -/
lemma split_video_empty (ip base od : String) (m : ℚ) (conv : Bool) (env : Env)
    (hdur : env.duration ≠ 0) (hL : m * 60 ≠ 0)
    (hn : num_segments env.duration (m * 60) = 0) :
    split_video ip base m conv od env =
      ([batchStartedEv (num_segmentsZ env.duration (m * 60)),
        finalEv (num_segmentsZ env.duration (m * 60)) env.abspathOut],
       Except.ok []) := by
  simp only [split_video, if_neg hdur, if_neg hL, hn]
  simp [segLoop]

/-- C4 counterexample: with `total_duration = 600` and `segment_length = 600`
(10 minutes), `split_video` does not reject the input — it computes a plan of
one segment and the batch returns normally. -/
theorem C4_counterexample :
    num_segments (600 : ℚ) ((10 : ℚ) * 60) = 1 ∧
    (∃ entries, (split_video "in.mp4" "in" 10 false "out" (envAllOk 600)).2 =
      Except.ok entries) ∧
    (∀ err, (split_video "in.mp4" "in" 10 false "out" (envAllOk 600)).2 ≠
      Except.error err) := by
  have hdur : (envAllOk 600).duration ≠ 0 := by
    simp only [envAllOk]
    norm_num
  have hL : (10 : ℚ) * 60 ≠ 0 := by norm_num
  obtain ⟨entries, hok⟩ := split_video_ok "in.mp4" "in" "out" 10 false (envAllOk 600)
    hdur hL
  refine ⟨?_, ⟨entries, hok⟩, ?_⟩
  · have hceil : (⌈(600 : ℚ) / (10 * 60)⌉ : ℤ) = 1 := by norm_num [Int.ceil_eq_iff]
    simp [num_segments, num_segmentsZ, hceil]
  · intro err heq
    rw [hok] at heq
    exact Except.noConfusion heq

/-- C4 (amended): `split_video` performs no validation of the segment length
against the duration: with `segment_length = total_duration` it computes a
one-segment plan `[0, total_duration)` and returns normally.  The rejection
of `segment_length ≥ total_duration` required by the scenario is enforced by
the interactive front ends (`src/main.py` lines 366-373, `src/gui.py` lines
204-211) before `split_video` is ever called. -/
theorem C4_no_planner_validation (ip base od : String) (m : ℚ) (conv : Bool)
    (env : Env) (hm : 0 < m) (hdur : env.duration = m * 60) :
    num_segments env.duration (m * 60) = 1 ∧
    segment_start (m * 60) 0 = 0 ∧
    segment_end env.duration (m * 60) 0 = env.duration ∧
    (∃ entries, (split_video ip base m conv od env).2 = Except.ok entries) ∧
    ¬ frontend_accepts m env.duration := by
  have hL : (0 : ℚ) < m * 60 := by positivity
  refine ⟨?_, by simp [segment_start], ?_, ?_, ?_⟩
  · rw [hdur]
    simp [num_segments, num_segmentsZ, div_self hL.ne']
  · simp only [segment_end, segment_start, hdur]
    simp
  · exact split_video_ok ip base od m conv env (by rw [hdur]; exact hL.ne') hL.ne'
  · rintro ⟨-, habs⟩
    rw [hdur] at habs
    exact absurd habs (lt_irrefl _)

/-- Witness for the amended C4 at `m = 10` minutes, duration 600 seconds. -/
theorem C4_no_planner_validation_witness :
    (0 : ℚ) < 10 ∧ (envAllOk 600).duration = (10 : ℚ) * 60 ∧
    (num_segments (envAllOk 600).duration ((10 : ℚ) * 60) = 1 ∧
      segment_start ((10 : ℚ) * 60) 0 = 0 ∧
      segment_end (envAllOk 600).duration ((10 : ℚ) * 60) 0 = (envAllOk 600).duration ∧
      (∃ entries, (split_video "in.mp4" "in" 10 false "out" (envAllOk 600)).2 =
        Except.ok entries) ∧
      ¬ frontend_accepts 10 (envAllOk 600).duration) := by
  have h1 : (0 : ℚ) < 10 := by norm_num
  have h2 : (envAllOk 600).duration = (10 : ℚ) * 60 := by
    simp only [envAllOk]
    norm_num
  exact ⟨h1, h2,
    C4_no_planner_validation "in.mp4" "in" "out" 10 false (envAllOk 600) h1 h2⟩

/-- C5 counterexample: a probed duration of `-5` seconds is not strictly
positive, yet `split_video` does not fail — it silently plans zero segments,
emits only the batch-started and final events, and returns an empty result. -/
theorem C5_counterexample :
    (envAllOk (-5)).duration < 0 ∧
    split_video "in.mp4" "in" 10 false "out" (envAllOk (-5)) =
      ([batchStartedEv (num_segmentsZ (-5) ((10 : ℚ) * 60)),
        finalEv (num_segmentsZ (-5) ((10 : ℚ) * 60)) "/out"],
       Except.ok []) ∧
    num_segmentsZ (-5) ((10 : ℚ) * 60) = 0 := by
  have hdur : (envAllOk (-5)).duration ≠ 0 := by
    simp only [envAllOk]
    norm_num
  have hceil : (⌈(-5 : ℚ) / (10 * 60)⌉ : ℤ) = 0 := by norm_num [Int.ceil_eq_iff]
  have hz : num_segmentsZ (-5 : ℚ) ((10 : ℚ) * 60) = 0 := by
    simp [num_segmentsZ, hceil]
  have hn : num_segments (envAllOk (-5)).duration ((10 : ℚ) * 60) = 0 := by
    simp only [envAllOk, num_segments, hz]
    rfl
  refine ⟨by simp only [envAllOk]; norm_num, ?_, hz⟩
  have h := split_video_empty "in.mp4" "in" "out" 10 false (envAllOk (-5))
    hdur (by norm_num) hn
  rw [h]
  rfl

/-- C5 (amended): `split_video` raises `VideoInfoError` before any segment
work — no events, no entries — exactly when the probed duration equals 0,
which is also what `get_duration` yields for a file whose metadata carries no
duration at all (the undeterminable case).  A negative probed duration,
however, is not rejected (see the counterexample): the guard tests `== 0`
only. -/
theorem C5_zero_duration_errors (ip base od : String) (m : ℚ) (conv : Bool)
    (env : Env) (hdur : env.duration = 0) :
    split_video ip base m conv od env =
      ([], Except.error (SplitError.videoInfo ip "Cannot read video duration")) ∧
    get_duration none [] = some 0 := by
  constructor
  · simp [split_video, hdur]
  · rfl

/-- Witness for the amended C5 at duration 0. -/
theorem C5_zero_duration_errors_witness :
    (envAllOk 0).duration = 0 ∧
    (split_video "in.mp4" "in" 10 false "out" (envAllOk 0) =
      ([], Except.error (SplitError.videoInfo "in.mp4" "Cannot read video duration")) ∧
    get_duration none [] = some 0) := by
  have h0 : (envAllOk 0).duration = 0 := rfl
  exact ⟨h0, C5_zero_duration_errors "in.mp4" "in" "out" 10 false (envAllOk 0) h0⟩

lemma colon_mem_hhmmss (q : ℚ) : ':' ∈ (seconds_to_hhmmss q).data := by
  simp only [seconds_to_hhmmss, String.data_append]
  simp [String.data]

lemma hhmmss_ne_cq (q : ℚ) : seconds_to_hhmmss q ≠ "-cq" := by
  intro heq
  have h := colon_mem_hhmmss q
  rw [heq] at h
  revert h
  decide

/-- C6: with `convert_to_h264 = false` the built invocation is exactly the
stream-copy command — `-c:v copy` and `-c:a copy` both present, adjacent —
and (provided neither path string is literally the flag `-cq` and the
duration does not render as it, which no number does) the quality flag `-cq`
does not occur anywhere in the argument list; the builder is a pure function,
so identical inputs give identical lists. -/
theorem C6_stream_copy (ip op : String) (st dur : ℚ)
    (hip : ip ≠ "-cq") (hop : op ≠ "-cq") (hdur : pyStr dur ≠ "-cq") :
    build_ffmpeg_cmd ip op st dur false =
      ["ffmpeg", "-y", "-ss", seconds_to_hhmmss st, "-i", ip, "-t", pyStr dur,
       "-c:v", "copy", "-c:a", "copy", op] ∧
    ((build_ffmpeg_cmd ip op st dur false)[8]? = some "-c:v" ∧
      (build_ffmpeg_cmd ip op st dur false)[9]? = some "copy") ∧
    ((build_ffmpeg_cmd ip op st dur false)[10]? = some "-c:a" ∧
      (build_ffmpeg_cmd ip op st dur false)[11]? = some "copy") ∧
    "-cq" ∉ build_ffmpeg_cmd ip op st dur false ∧
    (∀ ip2 op2 : String, ∀ st2 dur2 : ℚ, ∀ cv : Bool,
      ip = ip2 → op = op2 → st = st2 → dur = dur2 →
      build_ffmpeg_cmd ip op st dur cv = build_ffmpeg_cmd ip2 op2 st2 dur2 cv) := by
  refine ⟨rfl, ⟨rfl, rfl⟩, ⟨rfl, rfl⟩, ?_, ?_⟩
  · intro hmem
    have hmem2 : "-cq" ∈ ["ffmpeg", "-y", "-ss", seconds_to_hhmmss st, "-i", ip,
        "-t", pyStr dur, "-c:v", "copy", "-c:a", "copy", op] := hmem
    simp only [List.mem_cons, List.not_mem_nil, or_false] at hmem2
    rcases hmem2 with h | h | h | h | h | h | h | h | h | h | h | h | h
    · exact absurd h (by decide)
    · exact absurd h (by decide)
    · exact absurd h (by decide)
    · exact hhmmss_ne_cq st h.symm
    · exact absurd h (by decide)
    · exact hip h.symm
    · exact absurd h (by decide)
    · exact hdur h.symm
    · exact absurd h (by decide)
    · exact absurd h (by decide)
    · exact absurd h (by decide)
    · exact absurd h (by decide)
    · exact hop h.symm
  · intro ip2 op2 st2 dur2 cv h1 h2 h3 h4
    rw [h1, h2, h3, h4]

/-- Witness for C6 at concrete paths and times. -/
theorem C6_stream_copy_witness :
    ("a.mp4" : String) ≠ "-cq" ∧ ("b.mp4" : String) ≠ "-cq" ∧
    pyStr 600 ≠ "-cq" ∧
    (build_ffmpeg_cmd "a.mp4" "b.mp4" 0 600 false =
      ["ffmpeg", "-y", "-ss", seconds_to_hhmmss 0, "-i", "a.mp4", "-t", pyStr 600,
       "-c:v", "copy", "-c:a", "copy", "b.mp4"] ∧
    ((build_ffmpeg_cmd "a.mp4" "b.mp4" 0 600 false)[8]? = some "-c:v" ∧
      (build_ffmpeg_cmd "a.mp4" "b.mp4" 0 600 false)[9]? = some "copy") ∧
    ((build_ffmpeg_cmd "a.mp4" "b.mp4" 0 600 false)[10]? = some "-c:a" ∧
      (build_ffmpeg_cmd "a.mp4" "b.mp4" 0 600 false)[11]? = some "copy") ∧
    "-cq" ∉ build_ffmpeg_cmd "a.mp4" "b.mp4" 0 600 false ∧
    (∀ ip2 op2 : String, ∀ st2 dur2 : ℚ, ∀ cv : Bool,
      "a.mp4" = ip2 → "b.mp4" = op2 → (0 : ℚ) = st2 → (600 : ℚ) = dur2 →
      build_ffmpeg_cmd "a.mp4" "b.mp4" 0 600 cv =
        build_ffmpeg_cmd ip2 op2 st2 dur2 cv)) := by
  have h1 : ("a.mp4" : String) ≠ "-cq" := by decide
  have h2 : ("b.mp4" : String) ≠ "-cq" := by decide
  have h3 : pyStr 600 ≠ "-cq" := by
    have : pyStr 600 = "600" := rfl
    rw [this]
    decide
  exact ⟨h1, h2, h3, C6_stream_copy "a.mp4" "b.mp4" 0 600 h1 h2 h3⟩

/-- C7: in every built invocation the seek is input-side — token 2 is `-ss`,
token 3 the `HH:MM:SS`-formatted start, and only then token 4 is `-i`
followed by the input path — and token 7, following `-t`, is the rendering
of the segment's exact duration in seconds. -/
theorem C7_input_side_seek (ip op : String) (st dur : ℚ) (conv : Bool) :
    (build_ffmpeg_cmd ip op st dur conv).take 8 =
      ["ffmpeg", "-y", "-ss", seconds_to_hhmmss st, "-i", ip, "-t", pyStr dur] ∧
    (build_ffmpeg_cmd ip op st dur conv)[2]? = some "-ss" ∧
    (build_ffmpeg_cmd ip op st dur conv)[3]? = some (seconds_to_hhmmss st) ∧
    (build_ffmpeg_cmd ip op st dur conv)[4]? = some "-i" ∧
    (build_ffmpeg_cmd ip op st dur conv)[5]? = some ip ∧
    (build_ffmpeg_cmd ip op st dur conv)[6]? = some "-t" ∧
    (build_ffmpeg_cmd ip op st dur conv)[7]? = some (pyStr dur) := by
  cases conv <;> exact ⟨rfl, rfl, rfl, rfl, rfl, rfl, rfl⟩

/-- C8: start/end labels are `HH:MM` with the seconds truncated —
`3661` seconds yields `"01:01"` — and the output filename is
`{base}_{start_label} - {end_label}.mp4` with every colon of a label
replaced by `-`; the filename computation does not depend on the transcode
flag, so the `.mp4` extension is the same in both modes. -/
theorem C8_labels_and_filename :
    seconds_to_hm 3661 = "01:01" ∧
    sanitize_filename "01:01" = "01-01" ∧
    (∀ base sl el : String, out_filename base sl el =
      base ++ "_" ++ sanitize_filename sl ++ " - " ++ sanitize_filename el ++ ".mp4") ∧
    (∀ s : String, ':' ∉ (sanitize_filename s).data) ∧
    (∀ D L : ℚ, ∀ base : String, ∀ i : ℕ, seg_filename D L base i =
      out_filename base (seconds_to_hm (segment_start L i))
        (seconds_to_hm (segment_end D L i))) ∧
    out_filename "video" "01:01" "02:01" = "video_01-01 - 02-01.mp4" := by
  refine ⟨?_, by decide, fun _ _ _ => rfl, ?_, fun _ _ _ _ => rfl, by decide⟩
  · have hfl : (⌊(3661 : ℚ) / 3600⌋ : ℤ) = 1 := by norm_num [Int.floor_eq_iff]
    have hmod : pyMod 3661 3600 = 61 := by
      simp only [pyMod, hfl]
      norm_num
    have hfl2 : (⌊(61 : ℚ) / 60⌋ : ℤ) = 1 := by norm_num [Int.floor_eq_iff]
    simp only [seconds_to_hm, hfl, hmod, hfl2]
    decide
  · intro s hmem
    simp only [sanitize_filename] at hmem
    obtain ⟨c, -, hc⟩ := List.mem_map.mp hmem
    by_cases h : c = ':' <;> simp [h] at hc

lemma cast_pos_of_nat (d : ℕ) (hd : 0 < d) : (0 : ℚ) < (d : ℚ) := by
  exact_mod_cast hd

/-- Flooring a quotient by a positive natural number only depends on the
floor of the dividend. -/
lemma floor_div_floor (q : ℚ) (d : ℕ) (hd : 0 < d) :
    ⌊q / (d : ℚ)⌋ = ⌊(⌊q⌋ : ℚ) / (d : ℚ)⌋ := by
  rw [Rat.floor_intCast_div_natCast ⌊q⌋ d]
  have hdq : (0 : ℚ) < (d : ℚ) := cast_pos_of_nat d hd
  apply le_antisymm
  · rw [Int.le_ediv_iff_mul_le (by exact_mod_cast hd), Int.le_floor]
    push_cast
    have h1 : (⌊q / (d : ℚ)⌋ : ℚ) ≤ q / (d : ℚ) := Int.floor_le _
    calc (⌊q / (d : ℚ)⌋ : ℚ) * (d : ℚ) ≤ (q / (d : ℚ)) * (d : ℚ) :=
          mul_le_mul_of_nonneg_right h1 hdq.le
      _ = q := div_mul_cancel₀ q hdq.ne'
  · rw [Int.le_floor, le_div_iff₀ hdq]
    have h2 : (⌊q⌋ / (d : ℤ)) * (d : ℤ) ≤ ⌊q⌋ :=
      Int.ediv_mul_le ⌊q⌋ (by exact_mod_cast hd.ne')
    calc ((⌊q⌋ / (d : ℤ) : ℤ) : ℚ) * (d : ℚ)
        = (((⌊q⌋ / (d : ℤ)) * (d : ℤ) : ℤ) : ℚ) := by push_cast; ring
      _ ≤ (⌊q⌋ : ℚ) := by exact_mod_cast h2
      _ ≤ q := Int.floor_le q

lemma floor_pyMod (q : ℚ) (d : ℕ) (_hd : 0 < d) :
    ⌊pyMod q (d : ℚ)⌋ = ⌊q⌋ - (d : ℤ) * ⌊q / (d : ℚ)⌋ := by
  have h1 : pyMod q (d : ℚ) = q - (((d : ℤ) * ⌊q / (d : ℚ)⌋ : ℤ) : ℚ) := by
    simp only [pyMod]
    push_cast
    ring
  rw [h1, Int.floor_sub_int]

lemma pyMod_intCast (z : ℤ) (d : ℕ) :
    pyMod (z : ℚ) (d : ℚ) = ((z - (d : ℤ) * ⌊(z : ℚ) / (d : ℚ)⌋ : ℤ) : ℚ) := by
  simp only [pyMod]
  push_cast
  ring

/-- `seconds_to_hhmmss` only depends on the floor of its argument: every
component is computed by floors against positive integer divisors. -/
lemma hhmmss_floor_eq (q : ℚ) :
    seconds_to_hhmmss q = seconds_to_hhmmss (⌊q⌋ : ℚ) := by
  have h3600 : (3600 : ℚ) = ((3600 : ℕ) : ℚ) := by norm_num
  have h60 : (60 : ℚ) = ((60 : ℕ) : ℚ) := by norm_num
  have hdivH : ⌊q / 3600⌋ = ⌊(⌊q⌋ : ℚ) / 3600⌋ := by
    rw [h3600]
    exact floor_div_floor q 3600 (by norm_num)
  have hdivS : ⌊q / 60⌋ = ⌊(⌊q⌋ : ℚ) / 60⌋ := by
    rw [h60]
    exact floor_div_floor q 60 (by norm_num)
  have hmodH : ⌊pyMod q 3600⌋ = ⌊pyMod (⌊q⌋ : ℚ) 3600⌋ := by
    rw [h3600, floor_pyMod q 3600 (by norm_num), pyMod_intCast ⌊q⌋ 3600,
      Int.floor_intCast]
    rw [← h3600, hdivH]
  have hmodS : ⌊pyMod q 60⌋ = ⌊pyMod (⌊q⌋ : ℚ) 60⌋ := by
    rw [h60, floor_pyMod q 60 (by norm_num), pyMod_intCast ⌊q⌋ 60,
      Int.floor_intCast]
    rw [← h60, hdivS]
  have hdivM : ⌊pyMod q 3600 / 60⌋ = ⌊pyMod (⌊q⌋ : ℚ) 3600 / 60⌋ := by
    rw [h60]
    rw [floor_div_floor (pyMod q 3600) 60 (by norm_num), hmodH,
      ← floor_div_floor (pyMod (⌊q⌋ : ℚ) 3600) 60 (by norm_num)]
  simp only [seconds_to_hhmmss, hdivH, hdivM, hmodS]

/-- C9: the seek timestamp placed after `-ss` truncates the start time to
whole seconds — `seconds_to_hhmmss` cannot distinguish a start from its
floor — while the token after `-t` is rendered from the exact, possibly
fractional, duration; e.g. a start of `181/2 = 90.5` seconds seeks to
`00:01:30`, losing the half second, and a fractional
`segment_duration_minutes` such as `1/40` produces such fractional starts
(`segment_start` of segment 1 is `3/2`). -/
theorem C9_seek_truncates_start :
    (∀ q : ℚ, seconds_to_hhmmss q = seconds_to_hhmmss (⌊q⌋ : ℚ)) ∧
    (∀ ip op : String, ∀ st dur : ℚ, ∀ conv : Bool,
      (build_ffmpeg_cmd ip op st dur conv)[3]? = some (seconds_to_hhmmss st) ∧
      (build_ffmpeg_cmd ip op st dur conv)[7]? = some (pyStr dur)) ∧
    seconds_to_hhmmss (181/2 : ℚ) = "00:01:30" ∧
    (181/2 : ℚ) ≠ ((90 : ℤ) : ℚ) ∧
    segment_start ((1/40 : ℚ) * 60) 1 = 3/2 := by
  refine ⟨hhmmss_floor_eq, ?_, ?_, by norm_num, ?_⟩
  · intro ip op st dur conv
    cases conv <;> exact ⟨rfl, rfl⟩
  · have hH : (⌊(181/2 : ℚ) / 3600⌋ : ℤ) = 0 := by norm_num [Int.floor_eq_iff]
    have hmodH : pyMod (181/2 : ℚ) 3600 = 181/2 := by
      simp only [pyMod, hH]
      norm_num
    have hM : (⌊(181/2 : ℚ) / 60⌋ : ℤ) = 1 := by norm_num [Int.floor_eq_iff]
    have hdivM : (⌊(181/2 : ℚ) / 60⌋ : ℤ) = 1 := hM
    have hmodS : pyMod (181/2 : ℚ) 60 = 61/2 := by
      simp only [pyMod, hM]
      norm_num
    have hS : (⌊(61/2 : ℚ)⌋ : ℤ) = 30 := by norm_num [Int.floor_eq_iff]
    have hM2 : (⌊(181/2 : ℚ) / 3600⌋ : ℤ) = 0 := hH
    simp only [seconds_to_hhmmss, hH, hmodH, hM, hmodS, hS]
    have hMid : (⌊(181/2 : ℚ) / 60⌋ : ℤ) = 1 := hM
    decide
  · simp only [segment_start]
    norm_num

section ParsingLemmas

lemma splitOnChar_ne_nil (sep : Char) : ∀ cs : List Char, splitOnChar sep cs ≠ []
  | [] => by simp [splitOnChar]
  | c :: cs => by
    simp only [splitOnChar]
    rcases h : splitOnChar sep cs with _ | ⟨r, rs⟩
    · simp
    · by_cases hc : c = sep <;> simp [hc]

lemma splitOnChar_not_mem {sep : Char} :
    ∀ {cs : List Char}, sep ∉ cs → splitOnChar sep cs = [cs]
  | [], _ => rfl
  | c :: cs, h => by
    have hc : c ≠ sep := fun hcc => h (hcc ▸ List.mem_cons_self c cs)
    have hcs : sep ∉ cs := fun hm => h (List.mem_cons_of_mem c hm)
    simp only [splitOnChar, splitOnChar_not_mem hcs]
    simp [hc]

lemma splitOnChar_append {sep : Char} :
    ∀ {ds : List Char}, sep ∉ ds → ∀ es : List Char,
      splitOnChar sep (ds ++ sep :: es) = ds :: splitOnChar sep es
  | [], _, es => by
    simp only [List.nil_append, splitOnChar]
    rcases h : splitOnChar sep es with _ | ⟨r, rs⟩
    · exact absurd h (splitOnChar_ne_nil sep es)
    · simp
  | d :: ds, h, es => by
    have hd : d ≠ sep := fun hdd => h (hdd ▸ List.mem_cons_self d ds)
    have hds : sep ∉ ds := fun hm => h (List.mem_cons_of_mem d hm)
    have ih := splitOnChar_append hds es
    rw [List.cons_append]
    simp only [splitOnChar]
    rw [ih]
    simp [hd]

lemma not_mem_of_all_digit {sep : Char} (hsep : sep.isDigit = false)
    {cs : List Char} (h : cs.all Char.isDigit = true) : sep ∉ cs := by
  intro hmem
  have h2 := List.all_eq_true.mp h sep hmem
  rw [hsep] at h2
  exact Bool.noConfusion h2

lemma parseDigits?_digits {cs : List Char} (hne : cs ≠ [])
    (h : cs.all Char.isDigit = true) : parseDigits? cs = some (digitsVal cs) := by
  simp [parseDigits?, hne, h]

lemma parseUnsigned_digits {cs : List Char} (hne : cs ≠ [])
    (h : cs.all Char.isDigit = true) :
    parseUnsigned cs = some ((digitsVal cs : ℚ)) := by
  have hsplit : splitOnChar '.' cs = [cs] :=
    splitOnChar_not_mem (not_mem_of_all_digit (by decide) h)
  simp [parseUnsigned, hsplit, parseDigits?_digits hne h]

lemma parsePyFloat_digits {cs : List Char} (hne : cs ≠ [])
    (h : cs.all Char.isDigit = true) :
    parsePyFloat cs = some ((digitsVal cs : ℚ)) := by
  rcases cs with _ | ⟨c, rest⟩
  · exact absurd rfl hne
  · have hc : c.isDigit = true := by
      have := List.all_eq_true.mp h c (List.mem_cons_self c rest)
      exact this
    have hplus : c ≠ '+' := by
      intro hcc
      rw [hcc] at hc
      exact Bool.noConfusion hc
    have hminus : c ≠ '-' := by
      intro hcc
      rw [hcc] at hc
      exact Bool.noConfusion hc
    simp only [parsePyFloat, if_neg hplus, if_neg hminus]
    exact parseUnsigned_digits hne h

lemma round2_zero : round2 0 = 0 := by
  norm_num [round2, roundHalfEven]

end ParsingLemmas

/-- C10: `get_framerate` is total over stream descriptors — every branch of
the `try` is modelled and returns a number, never an escaping exception.  A
well-formed `num/den` value made of decimal digits yields `num / den`
rounded (half-even) to 2 decimals when `den ≠ 0`; a zero denominator, a
missing key (whose `"0/1"` default divides to 0), a value with no `/`, and
the concrete malformed or zero-denominator examples all yield `0.0`. -/
theorem C10_framerate_total :
    (∀ stream : List (String × String), ∀ ds es : List Char,
      dictGet stream "r_frame_rate" "0/1" = String.mk (ds ++ '/' :: es) →
      ds ≠ [] → ds.all Char.isDigit = true →
      es ≠ [] → es.all Char.isDigit = true →
      (digitsVal es ≠ 0 →
        get_framerate stream = round2 ((digitsVal ds : ℚ) / (digitsVal es : ℚ))) ∧
      (digitsVal es = 0 → get_framerate stream = 0)) ∧
    (∀ stream : List (String × String),
      stream.find? (fun p => p.1 = "r_frame_rate") = none →
      get_framerate stream = 0) ∧
    (∀ stream : List (String × String), ∀ cs : List Char,
      dictGet stream "r_frame_rate" "0/1" = String.mk cs →
      '/' ∉ cs → get_framerate stream = 0) ∧
    get_framerate [("r_frame_rate", "30/0")] = 0 ∧
    get_framerate [("r_frame_rate", "abc")] = 0 ∧
    get_framerate [] = 0 := by
  have hwf : ∀ stream : List (String × String), ∀ ds es : List Char,
      dictGet stream "r_frame_rate" "0/1" = String.mk (ds ++ '/' :: es) →
      ds ≠ [] → ds.all Char.isDigit = true →
      es ≠ [] → es.all Char.isDigit = true →
      (digitsVal es ≠ 0 →
        get_framerate stream = round2 ((digitsVal ds : ℚ) / (digitsVal es : ℚ))) ∧
      (digitsVal es = 0 → get_framerate stream = 0) := by
    intro stream ds es hlook hdne hdall hene heall
    have hdata : (String.mk (ds ++ '/' :: es)).data = ds ++ '/' :: es := rfl
    have hsplit : splitOnChar '/' (ds ++ '/' :: es) = [ds, es] := by
      rw [splitOnChar_append (not_mem_of_all_digit (by decide) hdall) es,
        splitOnChar_not_mem (not_mem_of_all_digit (by decide) heall)]
    constructor
    · intro hden
      have hdenQ : (digitsVal es : ℚ) ≠ 0 := Nat.cast_ne_zero.mpr hden
      simp only [get_framerate, hlook, hdata, hsplit,
        parsePyFloat_digits hdne hdall, parsePyFloat_digits hene heall,
        if_neg hdenQ]
    · intro hden
      have hdenQ : (digitsVal es : ℚ) = 0 := by exact_mod_cast hden
      simp only [get_framerate, hlook, hdata, hsplit,
        parsePyFloat_digits hdne hdall, parsePyFloat_digits hene heall,
        if_pos hdenQ]
  have hmissing : ∀ stream : List (String × String),
      stream.find? (fun p => p.1 = "r_frame_rate") = none →
      get_framerate stream = 0 := by
    intro stream hfind
    have hlook : dictGet stream "r_frame_rate" "0/1" =
        String.mk (['0'] ++ '/' :: ['1']) := by
      unfold dictGet
      rw [hfind]
      decide
    have h := (hwf stream ['0'] ['1'] hlook (by decide) (by decide) (by decide)
      (by decide)).1 (by decide)
    rw [h]
    have h0 : digitsVal ['0'] = 0 := by decide
    have h1 : digitsVal ['1'] = 1 := by decide
    rw [h0, h1]
    rw [show ((0 : ℕ) : ℚ) / ((1 : ℕ) : ℚ) = 0 by norm_num]
    exact round2_zero
  refine ⟨hwf, hmissing, ?_, ?_, ?_, ?_⟩
  · intro stream cs hlook hns
    have hdata : (String.mk cs).data = cs := rfl
    have hsplit : splitOnChar '/' cs = [cs] := splitOnChar_not_mem hns
    simp only [get_framerate, hlook, hdata, hsplit]
  · have hlook : dictGet [("r_frame_rate", "30/0")] "r_frame_rate" "0/1" =
        String.mk (['3', '0'] ++ '/' :: ['0']) := by decide
    exact (hwf _ ['3', '0'] ['0'] hlook (by decide) (by decide) (by decide)
      (by decide)).2 (by decide)
  · have hlook : dictGet [("r_frame_rate", "abc")] "r_frame_rate" "0/1" =
        String.mk ['a', 'b', 'c'] := by decide
    have hdata : (String.mk ['a', 'b', 'c']).data = ['a', 'b', 'c'] := rfl
    have hsplit : splitOnChar '/' ['a', 'b', 'c'] = [['a', 'b', 'c']] := by decide
    simp only [get_framerate, hlook, hdata, hsplit]
  · exact hmissing [] rfl

/-- Witness for C10's universally quantified well-formed case at the stream
value `"24/1"`. -/
theorem C10_framerate_total_witness :
    dictGet [("r_frame_rate", "24/1")] "r_frame_rate" "0/1" =
      String.mk (['2', '4'] ++ '/' :: ['1']) ∧
    (['2', '4'] : List Char) ≠ [] ∧ (['2', '4'] : List Char).all Char.isDigit = true ∧
    (['1'] : List Char) ≠ [] ∧ (['1'] : List Char).all Char.isDigit = true ∧
    digitsVal ['1'] ≠ 0 ∧
    get_framerate [("r_frame_rate", "24/1")] =
      round2 ((digitsVal ['2', '4'] : ℚ) / (digitsVal ['1'] : ℚ)) := by
  have hlook : dictGet [("r_frame_rate", "24/1")] "r_frame_rate" "0/1" =
      String.mk (['2', '4'] ++ '/' :: ['1']) := by decide
  exact ⟨hlook, by decide, by decide, by decide, by decide, by decide,
    (C10_framerate_total.1 [("r_frame_rate", "24/1")] ['2', '4'] ['1'] hlook
      (by decide) (by decide) (by decide) (by decide)).1 (by decide)⟩

/-- Witness for C7 at concrete paths and times. -/
theorem C7_input_side_seek_witness :
    (build_ffmpeg_cmd "a.mp4" "b.mp4" 90 600 true).take 8 =
      ["ffmpeg", "-y", "-ss", seconds_to_hhmmss 90, "-i", "a.mp4", "-t", pyStr 600] ∧
    (build_ffmpeg_cmd "a.mp4" "b.mp4" 90 600 true)[2]? = some "-ss" ∧
    (build_ffmpeg_cmd "a.mp4" "b.mp4" 90 600 true)[4]? = some "-i" :=
  ⟨(C7_input_side_seek "a.mp4" "b.mp4" 90 600 true).1,
   (C7_input_side_seek "a.mp4" "b.mp4" 90 600 true).2.1,
   (C7_input_side_seek "a.mp4" "b.mp4" 90 600 true).2.2.2.1⟩

/-- Witness for C8's universally quantified parts at concrete values. -/
theorem C8_labels_and_filename_witness :
    out_filename "vid" "00:10" "00:20" =
      "vid" ++ "_" ++ sanitize_filename "00:10" ++ " - " ++
        sanitize_filename "00:20" ++ ".mp4" ∧
    ':' ∉ (sanitize_filename "x:y").data :=
  ⟨C8_labels_and_filename.2.2.1 "vid" "00:10" "00:20",
   C8_labels_and_filename.2.2.2.1 "x:y"⟩

/-- Witness for C9's truncation identity at the fractional start `181/2`. -/
theorem C9_seek_truncates_start_witness :
    seconds_to_hhmmss (181/2 : ℚ) = seconds_to_hhmmss ((⌊(181/2 : ℚ)⌋ : ℤ) : ℚ) :=
  C9_seek_truncates_start.1 (181/2 : ℚ)

end VideoSplitter
